import Mathlib

/-!
Verification of the Categorical DQN notebook (06.categorical_dqn.ipynb).

Real-valued torch tensors are modelled exactly over the rationals.  The
flattened scatter-add of the categorical projection (torch
index_add_ over proj_dist.view(-1)) is modelled by its pointwise
semantics: cell j receives the sum of all source entries whose
destination index equals j.
-/

namespace RainbowC51

/-- Configuration of the categorical (C51) value distribution as held by
DQNAgent: support range [v_min, v_max], number of atoms and discount. -/
structure CatCfg where
  v_min : ℚ
  v_max : ℚ
  atom_size : ℕ
  gamma : ℚ

/-- delta_z = float(v_max - v_min) / (atom_size - 1), from _compute_dqn_loss. -/
def delta_z (c : CatCfg) : ℚ := (c.v_max - c.v_min) / ((c.atom_size : ℚ) - 1)

/-- The fixed support torch.linspace(v_min, v_max, atom_size):
entry i is v_min + i * delta_z. -/
def support (c : CatCfg) (i : ℕ) : ℚ := c.v_min + (i : ℚ) * delta_z c

/-- t_z = (reward + (1 - done) * gamma * support).clamp(min=v_min, max=v_max).
torch clamp with both bounds is min (max x lo) hi. -/
def t_z (c : CatCfg) (r d : ℚ) (i : ℕ) : ℚ :=
  min (max (r + (1 - d) * c.gamma * support c i) c.v_min) c.v_max

/-- b = (t_z - v_min) / delta_z, the fractional index on the support. -/
def bFrac (c : CatCfg) (r d : ℚ) (i : ℕ) : ℚ :=
  (t_z c r d i - c.v_min) / delta_z c

/-- l = b.floor().long(). -/
def lIdx (c : CatCfg) (r d : ℚ) (i : ℕ) : ℤ := Int.floor (bFrac c r d i)

/-- u = b.ceil().long(). -/
def uIdx (c : CatCfg) (r d : ℚ) (i : ℕ) : ℤ := Int.ceil (bFrac c r d i)

/-- Semantics of torch.Tensor.index_add_ on a flat accumulator holding n
source entries: cell j becomes acc j plus the sum of v t over every
source position t whose destination index idx t equals j. -/
def indexAdd (acc : ℤ → ℚ) (n : ℕ) (idx : ℕ → ℤ) (v : ℕ → ℚ) : ℤ → ℚ :=
  fun j => acc j + ∑ t ∈ Finset.range n, if idx t = j then v t else 0

/-- proj_dist of _compute_dqn_loss as a flattened accumulator: start from
torch.zeros, then index_add_ at (l + offset).view(-1) the values
(next_dist * (u.float() - b)).view(-1), then index_add_ at
(u + offset).view(-1) the values (next_dist * (b - l.float())).view(-1).
Flat position t of a [batch, atom_size] tensor is row t / atom_size and
atom t % atom_size; offset of row k is k * atom_size, the value of
torch.linspace(0, (batch_size - 1) * atom_size, batch_size) at k. -/
def proj_dist (c : CatCfg) (B : ℕ) (rew don : ℕ → ℚ) (nd : ℕ → ℕ → ℚ) : ℤ → ℚ :=
  indexAdd
    (indexAdd (fun _ => 0) (B * c.atom_size)
      (fun t => lIdx c (rew (t / c.atom_size)) (don (t / c.atom_size)) (t % c.atom_size)
        + ((t / c.atom_size) * c.atom_size : ℕ))
      (fun t => nd (t / c.atom_size) (t % c.atom_size)
        * ((uIdx c (rew (t / c.atom_size)) (don (t / c.atom_size)) (t % c.atom_size) : ℚ)
            - bFrac c (rew (t / c.atom_size)) (don (t / c.atom_size)) (t % c.atom_size))))
    (B * c.atom_size)
    (fun t => uIdx c (rew (t / c.atom_size)) (don (t / c.atom_size)) (t % c.atom_size)
      + ((t / c.atom_size) * c.atom_size : ℕ))
    (fun t => nd (t / c.atom_size) (t % c.atom_size)
      * (bFrac c (rew (t / c.atom_size)) (don (t / c.atom_size)) (t % c.atom_size)
          - (lIdx c (rew (t / c.atom_size)) (don (t / c.atom_size)) (t % c.atom_size) : ℚ)))

/-- One row of the projection: proj_dist applied to a batch of one. -/
def projRow (c : CatCfg) (r d : ℚ) (p : ℕ → ℚ) : ℤ → ℚ :=
  proj_dist c 1 (fun _ => r) (fun _ => d) (fun _ => p)

lemma row_div (k i A : ℕ) (hi : i < A) : (k * A + i) / A = k := by
  have hA : 0 < A := Nat.lt_of_le_of_lt (Nat.zero_le i) hi
  rw [Nat.mul_comm k A, Nat.mul_add_div hA, Nat.div_eq_of_lt hi, Nat.add_zero]

lemma row_mod (k i A : ℕ) (hi : i < A) : (k * A + i) % A = i := by
  rw [Nat.mul_comm k A, Nat.mul_add_mod, Nat.mod_eq_of_lt hi]

lemma sum_range_mul_split (f : ℕ → ℚ) (B A : ℕ) :
    ∑ t ∈ Finset.range (B * A), f t
      = ∑ k ∈ Finset.range B, ∑ i ∈ Finset.range A, f (k * A + i) := by
  induction B with
  | zero => simp
  | succ n ih => rw [Nat.succ_mul, Finset.sum_range_add, ih, Finset.sum_range_succ]

/-- Closed form of the flattened projection: cell j collects, over every
batch row k and atom i, the l-target and u-target contributions whose
offset destination equals j. -/
lemma proj_dist_apply (c : CatCfg) (B : ℕ) (rew don : ℕ → ℚ) (nd : ℕ → ℕ → ℚ) (j : ℤ) :
    proj_dist c B rew don nd j
      = (∑ k ∈ Finset.range B, ∑ i ∈ Finset.range c.atom_size,
          if lIdx c (rew k) (don k) i + ((k * c.atom_size : ℕ) : ℤ) = j
          then nd k i * ((uIdx c (rew k) (don k) i : ℚ) - bFrac c (rew k) (don k) i)
          else 0)
        + ∑ k ∈ Finset.range B, ∑ i ∈ Finset.range c.atom_size,
            if uIdx c (rew k) (don k) i + ((k * c.atom_size : ℕ) : ℤ) = j
            then nd k i * (bFrac c (rew k) (don k) i - (lIdx c (rew k) (don k) i : ℚ))
            else 0 := by
  unfold proj_dist indexAdd
  simp only [zero_add]
  rw [sum_range_mul_split _ B c.atom_size, sum_range_mul_split _ B c.atom_size]
  congr 1
  all_goals
    refine Finset.sum_congr rfl (fun k _ => Finset.sum_congr rfl (fun i hi => ?_))
  all_goals
    rw [row_div k i c.atom_size (Finset.mem_range.mp hi),
      row_mod k i c.atom_size (Finset.mem_range.mp hi)]

/-- Closed form of a single projected row. -/
lemma projRow_apply (c : CatCfg) (r d : ℚ) (p : ℕ → ℚ) (j : ℤ) :
    projRow c r d p j
      = (∑ i ∈ Finset.range c.atom_size,
          if lIdx c r d i = j
          then p i * ((uIdx c r d i : ℚ) - bFrac c r d i) else 0)
        + ∑ i ∈ Finset.range c.atom_size,
            if uIdx c r d i = j
            then p i * (bFrac c r d i - (lIdx c r d i : ℚ)) else 0 := by
  rw [projRow, proj_dist_apply]
  simp

lemma delta_z_pos (c : CatCfg) (hA : 2 ≤ c.atom_size) (hv : c.v_min < c.v_max) :
    0 < delta_z c := by
  have h2 : (2 : ℚ) ≤ (c.atom_size : ℚ) := by exact_mod_cast hA
  exact div_pos (by linarith) (by linarith)

lemma t_z_mem (c : CatCfg) (hv : c.v_min < c.v_max) (r d : ℚ) (i : ℕ) :
    c.v_min ≤ t_z c r d i ∧ t_z c r d i ≤ c.v_max := by
  refine ⟨le_min (le_max_right _ _) hv.le, min_le_right _ _⟩

lemma bFrac_nonneg (c : CatCfg) (hA : 2 ≤ c.atom_size) (hv : c.v_min < c.v_max)
    (r d : ℚ) (i : ℕ) : 0 ≤ bFrac c r d i := by
  have hd := delta_z_pos c hA hv
  have h1 := (t_z_mem c hv r d i).1
  exact div_nonneg (by linarith) hd.le

lemma bFrac_le (c : CatCfg) (hA : 2 ≤ c.atom_size) (hv : c.v_min < c.v_max)
    (r d : ℚ) (i : ℕ) : bFrac c r d i ≤ (c.atom_size : ℚ) - 1 := by
  have hd := delta_z_pos c hA hv
  have h2 := (t_z_mem c hv r d i).2
  have h3 : bFrac c r d i ≤ (c.v_max - c.v_min) / delta_z c := by
    rw [bFrac]
    exact (div_le_div_iff_of_pos_right hd).mpr (by linarith)
  have h2q : (2 : ℚ) ≤ (c.atom_size : ℚ) := by exact_mod_cast hA
  have h4 : (c.v_max - c.v_min) / delta_z c = (c.atom_size : ℚ) - 1 := by
    have hne1 : c.v_max - c.v_min ≠ 0 := by linarith
    have hne2 : (c.atom_size : ℚ) - 1 ≠ 0 := by linarith
    rw [delta_z]
    field_simp
  linarith

lemma lIdx_nonneg (c : CatCfg) (hA : 2 ≤ c.atom_size) (hv : c.v_min < c.v_max)
    (r d : ℚ) (i : ℕ) : 0 ≤ lIdx c r d i :=
  Int.le_floor.mpr (by exact_mod_cast bFrac_nonneg c hA hv r d i)

lemma uIdx_le (c : CatCfg) (hA : 2 ≤ c.atom_size) (hv : c.v_min < c.v_max)
    (r d : ℚ) (i : ℕ) : uIdx c r d i ≤ (c.atom_size : ℤ) - 1 :=
  Int.ceil_le.mpr (by push_cast; exact bFrac_le c hA hv r d i)

lemma uIdx_nonneg (c : CatCfg) (hA : 2 ≤ c.atom_size) (hv : c.v_min < c.v_max)
    (r d : ℚ) (i : ℕ) : 0 ≤ uIdx c r d i :=
  le_trans (lIdx_nonneg c hA hv r d i) (Int.floor_le_ceil _)

lemma lIdx_le (c : CatCfg) (hA : 2 ≤ c.atom_size) (hv : c.v_min < c.v_max)
    (r d : ℚ) (i : ℕ) : lIdx c r d i ≤ (c.atom_size : ℤ) - 1 :=
  le_trans (Int.floor_le_ceil _) (uIdx_le c hA hv r d i)

/-- Destination cells of distinct batch rows are distinct: an in-row index
x of row k1 and an in-row index y of row k2 cannot collide once the
per-row offsets are added. -/
lemma offset_apart {A k1 k2 : ℕ} {x y : ℤ} (hx0 : 0 ≤ x) (hx1 : x < (A : ℤ))
    (hy0 : 0 ≤ y) (hy1 : y < (A : ℤ)) (hne : k1 ≠ k2) :
    x + ((k1 * A : ℕ) : ℤ) ≠ y + ((k2 * A : ℕ) : ℤ) := by
  rcases Nat.lt_or_ge k1 k2 with h | h
  · have hmul : ((k1 + 1) * A : ℕ) ≤ (k2 * A : ℕ) := Nat.mul_le_mul_right A h
    have hmul2 : (((k1 + 1) * A : ℕ) : ℤ) ≤ ((k2 * A : ℕ) : ℤ) := by exact_mod_cast hmul
    have hexp : (((k1 + 1) * A : ℕ) : ℤ) = ((k1 * A : ℕ) : ℤ) + (A : ℤ) := by push_cast; ring
    intro hcontra
    have : x + ((k1 * A : ℕ) : ℤ) < y + ((k2 * A : ℕ) : ℤ) := by
      calc x + ((k1 * A : ℕ) : ℤ) < ((k1 * A : ℕ) : ℤ) + (A : ℤ) := by linarith
      _ = (((k1 + 1) * A : ℕ) : ℤ) := hexp.symm
      _ ≤ ((k2 * A : ℕ) : ℤ) := hmul2
      _ ≤ y + ((k2 * A : ℕ) : ℤ) := by linarith
    exact absurd hcontra (ne_of_lt this)
  · have hlt : k2 < k1 := Nat.lt_of_le_of_ne h (fun he => hne he.symm)
    have hmul : ((k2 + 1) * A : ℕ) ≤ (k1 * A : ℕ) := Nat.mul_le_mul_right A hlt
    have hmul2 : (((k2 + 1) * A : ℕ) : ℤ) ≤ ((k1 * A : ℕ) : ℤ) := by exact_mod_cast hmul
    have hexp : (((k2 + 1) * A : ℕ) : ℤ) = ((k2 * A : ℕ) : ℤ) + (A : ℤ) := by push_cast; ring
    intro hcontra
    have : y + ((k2 * A : ℕ) : ℤ) < x + ((k1 * A : ℕ) : ℤ) := by
      calc y + ((k2 * A : ℕ) : ℤ) < ((k2 * A : ℕ) : ℤ) + (A : ℤ) := by linarith
      _ = (((k2 + 1) * A : ℕ) : ℤ) := hexp.symm
      _ ≤ ((k1 * A : ℕ) : ℤ) := hmul2
      _ ≤ x + ((k1 * A : ℕ) : ℤ) := by linarith
    exact absurd hcontra.symm (ne_of_lt this)

/-- One index_add_ pass restricted to the cell k * A + j of the flattened
accumulator: only the sources of batch row k can hit it, provided every
in-row destination index stays inside [0, A). -/
lemma slice_half (A B : ℕ) (g : ℕ → ℕ → ℤ) (w : ℕ → ℕ → ℚ)
    (hg : ∀ k2 i, i < A → 0 ≤ g k2 i ∧ g k2 i < (A : ℤ))
    (k j : ℕ) (hk : k < B) (hj : j < A) :
    (∑ k2 ∈ Finset.range B, ∑ i ∈ Finset.range A,
        if g k2 i + ((k2 * A : ℕ) : ℤ) = ((k * A + j : ℕ) : ℤ) then w k2 i else 0)
      = ∑ i ∈ Finset.range A, if g k i = (j : ℤ) then w k i else 0 := by
  have hcast : ((k * A + j : ℕ) : ℤ) = (j : ℤ) + ((k * A : ℕ) : ℤ) := by push_cast; ring
  rw [Finset.sum_eq_single_of_mem k (Finset.mem_range.mpr hk)]
  · exact Finset.sum_congr rfl (fun i _hi => by simp only [hcast, add_left_inj])
  · intro k2 hk2 hne
    refine Finset.sum_eq_zero (fun i hi => ?_)
    have hb := hg k2 i (Finset.mem_range.mp hi)
    rw [if_neg]
    rw [hcast]
    exact offset_apart hb.1 hb.2 (Int.natCast_nonneg j) (by exact_mod_cast hj) hne

/-- C8: in the flattened scatter-add of the projection, for every batch row
k and every atom index i both destination indices l + k * atom_size and
u + k * atom_size lie within row k's slice
[k * atom_size, (k+1) * atom_size) of the flattened accumulator (hence
within the batch_size * atom_size array), and cell j of row k of proj_dist
equals the projection computed from row k's reward, done flag and
next-state distribution alone, so accumulation never crosses batch-row
boundaries. -/
theorem C8_projection_row_isolation (c : CatCfg) (hA : 2 ≤ c.atom_size)
    (hv : c.v_min < c.v_max) (B : ℕ) (rew don : ℕ → ℚ) (nd : ℕ → ℕ → ℚ)
    (k i : ℕ) (hk : k < B) (hi : i < c.atom_size) :
    (((k * c.atom_size : ℕ) : ℤ) ≤ lIdx c (rew k) (don k) i + ((k * c.atom_size : ℕ) : ℤ)
      ∧ lIdx c (rew k) (don k) i + ((k * c.atom_size : ℕ) : ℤ)
          < (((k + 1) * c.atom_size : ℕ) : ℤ))
    ∧ (((k * c.atom_size : ℕ) : ℤ) ≤ uIdx c (rew k) (don k) i + ((k * c.atom_size : ℕ) : ℤ)
      ∧ uIdx c (rew k) (don k) i + ((k * c.atom_size : ℕ) : ℤ)
          < (((k + 1) * c.atom_size : ℕ) : ℤ))
    ∧ lIdx c (rew k) (don k) i + ((k * c.atom_size : ℕ) : ℤ) < ((B * c.atom_size : ℕ) : ℤ)
    ∧ uIdx c (rew k) (don k) i + ((k * c.atom_size : ℕ) : ℤ) < ((B * c.atom_size : ℕ) : ℤ)
    ∧ ∀ j : ℕ, j < c.atom_size →
        proj_dist c B rew don nd ((k * c.atom_size + j : ℕ) : ℤ)
          = projRow c (rew k) (don k) (nd k) (j : ℤ) := by
  have hsucc : (((k + 1) * c.atom_size : ℕ) : ℤ)
      = ((k * c.atom_size : ℕ) : ℤ) + (c.atom_size : ℤ) := by push_cast; ring
  have hBA : (((k + 1) * c.atom_size : ℕ) : ℤ) ≤ ((B * c.atom_size : ℕ) : ℤ) := by
    exact_mod_cast Nat.mul_le_mul_right c.atom_size hk
  have hl0 := lIdx_nonneg c hA hv (rew k) (don k) i
  have hl1 := lIdx_le c hA hv (rew k) (don k) i
  have hu0 := uIdx_nonneg c hA hv (rew k) (don k) i
  have hu1 := uIdx_le c hA hv (rew k) (don k) i
  refine ⟨⟨by linarith, by rw [hsucc]; linarith⟩, ⟨by linarith, by rw [hsucc]; linarith⟩,
    by linarith, by linarith, ?_⟩
  intro j hj
  rw [proj_dist_apply, projRow_apply]
  congr 1
  · refine slice_half c.atom_size B (fun k2 i2 => lIdx c (rew k2) (don k2) i2) _ ?_ k j hk hj
    intro k2 i2 hi2
    have h0 := lIdx_nonneg c hA hv (rew k2) (don k2) i2
    have h1 := lIdx_le c hA hv (rew k2) (don k2) i2
    exact ⟨h0, by linarith⟩
  · refine slice_half c.atom_size B (fun k2 i2 => uIdx c (rew k2) (don k2) i2) _ ?_ k j hk hj
    intro k2 i2 hi2
    have h0 := uIdx_nonneg c hA hv (rew k2) (don k2) i2
    have h1 := uIdx_le c hA hv (rew k2) (don k2) i2
    exact ⟨h0, by linarith⟩

/-- Summing one scatter-add half over all cells of a row collects each
source weight exactly once, provided every destination index stays
inside [0, A). -/
lemma sum_hits (A : ℕ) (g : ℕ → ℤ) (w : ℕ → ℚ)
    (hg : ∀ i, i < A → 0 ≤ g i ∧ g i < (A : ℤ)) :
    (∑ j ∈ Finset.range A, ∑ i ∈ Finset.range A, if g i = (j : ℤ) then w i else 0)
      = ∑ i ∈ Finset.range A, w i := by
  rw [Finset.sum_comm]
  refine Finset.sum_congr rfl (fun i hi => ?_)
  have hb := hg i (Finset.mem_range.mp hi)
  have h0 : ((g i).toNat : ℤ) = g i := Int.toNat_of_nonneg hb.1
  have hmem : (g i).toNat ∈ Finset.range A := by
    rw [Finset.mem_range]
    omega
  rw [Finset.sum_eq_single_of_mem ((g i).toNat) hmem]
  · rw [if_pos h0.symm]
  · intro j _ hne
    rw [if_neg]
    intro hcontra
    exact hne (by omega)

/-- C2 (amended): every row of the projector output sums to exactly 1 for
any input row summing to 1, provided no fractional index b lands exactly
on an atom (for every atom l and u differ); the source drops the mass of
any atom with l = u, so the unamended universal claim fails. -/
theorem C2_row_sum_preserved (c : CatCfg) (hA : 2 ≤ c.atom_size)
    (hv : c.v_min < c.v_max) (r d : ℚ) (p : ℕ → ℚ)
    (hp : ∑ i ∈ Finset.range c.atom_size, p i = 1)
    (hsplit : ∀ i, i < c.atom_size → lIdx c r d i ≠ uIdx c r d i) :
    ∑ j ∈ Finset.range c.atom_size, projRow c r d p (j : ℤ) = 1 := by
  have h1 : ∀ j ∈ Finset.range c.atom_size, projRow c r d p (j : ℤ)
      = (∑ i ∈ Finset.range c.atom_size,
          if lIdx c r d i = (j : ℤ)
          then p i * ((uIdx c r d i : ℚ) - bFrac c r d i) else 0)
        + ∑ i ∈ Finset.range c.atom_size,
            if uIdx c r d i = (j : ℤ)
            then p i * (bFrac c r d i - (lIdx c r d i : ℚ)) else 0 :=
    fun j _ => projRow_apply c r d p (j : ℤ)
  rw [Finset.sum_congr rfl h1, Finset.sum_add_distrib,
    sum_hits c.atom_size (fun i => lIdx c r d i)
      (fun i => p i * ((uIdx c r d i : ℚ) - bFrac c r d i))
      (fun i _hi2 => ⟨lIdx_nonneg c hA hv r d i,
        lt_of_le_of_lt (lIdx_le c hA hv r d i) (sub_one_lt _)⟩),
    sum_hits c.atom_size (fun i => uIdx c r d i)
      (fun i => p i * (bFrac c r d i - (lIdx c r d i : ℚ)))
      (fun i _hi2 => ⟨uIdx_nonneg c hA hv r d i,
        lt_of_le_of_lt (uIdx_le c hA hv r d i) (sub_one_lt _)⟩),
    ← Finset.sum_add_distrib]
  have h2 : ∀ i ∈ Finset.range c.atom_size,
      p i * ((uIdx c r d i : ℚ) - bFrac c r d i)
        + p i * (bFrac c r d i - (lIdx c r d i : ℚ)) = p i := by
    intro i hi
    have hne := hsplit i (Finset.mem_range.mp hi)
    have hle := Int.floor_le_ceil (bFrac c r d i)
    have hlt := Int.ceil_le_floor_add_one (bFrac c r d i)
    have hu : uIdx c r d i = lIdx c r d i + 1 := by
      rw [uIdx, lIdx] at hne ⊢
      omega
    have h3 : ((uIdx c r d i : ℚ) - bFrac c r d i)
        + (bFrac c r d i - (lIdx c r d i : ℚ)) = 1 := by
      rw [hu]
      push_cast
      ring
    calc p i * ((uIdx c r d i : ℚ) - bFrac c r d i)
          + p i * (bFrac c r d i - (lIdx c r d i : ℚ))
        = p i * (((uIdx c r d i : ℚ) - bFrac c r d i)
            + (bFrac c r d i - (lIdx c r d i : ℚ))) := by ring
      _ = p i * 1 := by rw [h3]
      _ = p i := mul_one _
  rw [Finset.sum_congr rfl h2, hp]

/-- The default configuration of the notebook: v_min = 0, v_max = 200,
atom_size = 51, gamma = 0.99. -/
def cDef : CatCfg := ⟨0, 200, 51, 99 / 100⟩

/-- The end-to-end scenario configuration of the spec: defaults with
gamma = 1. -/
def cSpec : CatCfg := ⟨0, 200, 51, 1⟩

/-- Next-state distribution concentrated entirely at atom index 10. -/
def pAt10 : ℕ → ℚ := fun i => if i = 10 then 1 else 0

/-- Next-state distribution concentrated entirely at atom index 0. -/
def pAt0 : ℕ → ℚ := fun i => if i = 0 then 1 else 0

lemma bFrac_cSpec_ten : bFrac cSpec 4 0 10 = 11 := by
  norm_num [bFrac, t_z, support, delta_z, cSpec, min_def, max_def]

lemma lIdx_cSpec_ten : lIdx cSpec 4 0 10 = 11 := by
  rw [lIdx, bFrac_cSpec_ten]
  norm_num

lemma uIdx_cSpec_ten : uIdx cSpec 4 0 10 = 11 := by
  rw [uIdx, bFrac_cSpec_ten, Int.ceil_eq_iff]
  norm_num

/-- In the spec scenario every cell of the projected row is zero: for the
only occupied source atom (index 10) the two interpolation weights
u - b and b - l both vanish because b = 11 exactly. -/
lemma projRow_cSpec_zero (j : ℤ) : projRow cSpec 4 0 pAt10 j = 0 := by
  rw [projRow_apply]
  rw [Finset.sum_eq_zero, Finset.sum_eq_zero, add_zero]
  · intro i _
    rcases eq_or_ne i 10 with rfl | hne
    · rw [uIdx_cSpec_ten, lIdx_cSpec_ten, bFrac_cSpec_ten]
      norm_num
    · simp [pAt10, hne]
  · intro i _
    rcases eq_or_ne i 10 with rfl | hne
    · rw [uIdx_cSpec_ten, lIdx_cSpec_ten, bFrac_cSpec_ten]
      norm_num
    · simp [pAt10, hne]

/-- C1: in the spec scenario (v_min = 0, v_max = 200, atom_size = 51,
reward = 4, gamma = 1, done = 0, all next-state mass at atom index 10),
b lands exactly on atom 11 (l = u = 11), yet the code deposits zero mass
everywhere — in particular zero at index 11 — because both interpolation
weights u - b and b - l vanish when l = u: the full source mass is
dropped, not deposited, contradicting the claim. -/
theorem C1_exact_atom_mass_dropped :
    pAt10 10 = 1
    ∧ bFrac cSpec 4 0 10 = 11
    ∧ lIdx cSpec 4 0 10 = 11 ∧ uIdx cSpec 4 0 10 = 11
    ∧ projRow cSpec 4 0 pAt10 11 = 0
    ∧ ∀ j : ℤ, projRow cSpec 4 0 pAt10 j = 0 := by
  exact ⟨rfl, bFrac_cSpec_ten, lIdx_cSpec_ten, uIdx_cSpec_ten,
    projRow_cSpec_zero 11, projRow_cSpec_zero⟩

lemma bFrac_cDef_done (r : ℚ) (hr0 : 0 ≤ r) (hr1 : r ≤ 200) (i : ℕ) :
    bFrac cDef r 1 i = r / 4 := by
  rw [bFrac, t_z, support, delta_z]
  norm_num [cDef, min_def, max_def, hr0, hr1]

lemma bFrac_cDef_zero (i : ℕ) : bFrac cDef 0 1 i = 0 := by
  rw [bFrac_cDef_done 0 le_rfl (by norm_num) i]
  norm_num

lemma lIdx_cDef_zero (i : ℕ) : lIdx cDef 0 1 i = 0 := by
  rw [lIdx, bFrac_cDef_zero]
  norm_num

lemma uIdx_cDef_zero (i : ℕ) : uIdx cDef 0 1 i = 0 := by
  rw [uIdx, bFrac_cDef_zero, Int.ceil_eq_iff]
  norm_num

/-- With reward 0 on a terminal transition every b is exactly 0, so every
cell of the projected row is zero. -/
lemma projRow_cDef_zero (j : ℤ) : projRow cDef 0 1 pAt0 j = 0 := by
  rw [projRow_apply]
  rw [Finset.sum_eq_zero, Finset.sum_eq_zero, add_zero]
  · intro i _
    rcases eq_or_ne i 0 with rfl | hne
    · rw [uIdx_cDef_zero, lIdx_cDef_zero, bFrac_cDef_zero]
      norm_num
    · simp [pAt0, hne]
  · intro i _
    rcases eq_or_ne i 0 with rfl | hne
    · rw [uIdx_cDef_zero, lIdx_cDef_zero, bFrac_cDef_zero]
      norm_num
    · simp [pAt0, hne]

/-- C2 counterexample: at the default configuration, for the batch row
(reward 0, done = 1) and an input distribution summing to 1 the projected
row sums to 0, not 1: every b lands exactly on atom 0 and the code drops
all mass there. -/
theorem C2_row_sum_counterexample :
    (∑ i ∈ Finset.range 51, pAt0 i) = 1
    ∧ (∑ j ∈ Finset.range 51, projRow cDef 0 1 pAt0 (j : ℤ)) = 0 := by
  constructor
  · simp [pAt0]
  · exact Finset.sum_eq_zero (fun j _ => projRow_cDef_zero (j : ℤ))

lemma bFrac_cDef_neg : bFrac cDef (-10) 0 0 = 0 := by
  norm_num [bFrac, t_z, support, delta_z, cDef, min_def, max_def]

/-- C3: with reward -10 on a non-terminal transition the unclamped target
position of atom 0 is -10 < v_min; t_z clamps it to v_min, b = 0 lands
exactly on atom 0 with l = u = 0, and the code deposits zero mass at atom
0 instead of the full source mass 1: the clamp formula holds but the
boundary mass vanishes instead of landing on atom 0. -/
theorem C3_clamped_mass_dropped :
    (-10 + (1 - 0) * cDef.gamma * support cDef 0 < cDef.v_min)
    ∧ t_z cDef (-10) 0 0 = cDef.v_min
    ∧ bFrac cDef (-10) 0 0 = 0
    ∧ lIdx cDef (-10) 0 0 = 0 ∧ uIdx cDef (-10) 0 0 = 0
    ∧ pAt0 0 = 1
    ∧ projRow cDef (-10) 0 pAt0 0 = 0 := by
  have hb0 : bFrac cDef (-10) 0 0 = 0 := bFrac_cDef_neg
  have hl0 : lIdx cDef (-10) 0 0 = 0 := by
    rw [lIdx, hb0]
    norm_num
  have hu0 : uIdx cDef (-10) 0 0 = 0 := by
    rw [uIdx, hb0, Int.ceil_eq_iff]
    norm_num
  refine ⟨by norm_num [support, delta_z, cDef], ?_, hb0, hl0, hu0, rfl, ?_⟩
  · norm_num [t_z, support, delta_z, cDef, min_def, max_def]
  · rw [projRow_apply]
    rw [Finset.sum_eq_zero, Finset.sum_eq_zero, add_zero]
    · intro i _
      rcases eq_or_ne i 0 with rfl | hne
      · rw [hu0, hl0, hb0]
        norm_num
      · simp [pAt0, hne]
    · intro i _
      rcases eq_or_ne i 0 with rfl | hne
      · rw [hu0, hl0, hb0]
        norm_num
      · simp [pAt0, hne]

/-- A small valid configuration used to witness the general theorems:
v_min = 0, v_max = 1, atom_size = 2, gamma = 1. -/
def cWit : CatCfg := ⟨0, 1, 2, 1⟩

theorem C2_row_sum_preserved_witness :
    ∑ j ∈ Finset.range 2, projRow cWit (1 / 4) 1 (fun _ => 1 / 2) (j : ℤ) = 1 := by
  have hb : ∀ i : ℕ, bFrac cWit (1 / 4) 1 i = 1 / 4 := by
    intro i
    norm_num [bFrac, t_z, support, delta_z, cWit, min_def, max_def]
  have hsplit : ∀ i, i < cWit.atom_size
      → lIdx cWit (1 / 4) 1 i ≠ uIdx cWit (1 / 4) 1 i := by
    intro i _
    rw [lIdx, uIdx, hb i]
    have h1 : Int.floor ((1 : ℚ) / 4) = 0 := by norm_num
    have h2 : Int.ceil ((1 : ℚ) / 4) = 1 := by
      rw [Int.ceil_eq_iff]
      norm_num
    rw [h1, h2]
    omega
  exact C2_row_sum_preserved cWit (by norm_num [cWit]) (by norm_num [cWit]) (1 / 4) 1
    (fun _ => 1 / 2) (by norm_num [cWit, Finset.sum_range_succ]) hsplit

theorem C8_projection_row_isolation_witness :
    (((0 * cDef.atom_size : ℕ) : ℤ) ≤ lIdx cDef 0 0 0 + ((0 * cDef.atom_size : ℕ) : ℤ))
    ∧ proj_dist cDef 1 (fun _ => 0) (fun _ => 0) (fun _ _ => 0)
        ((0 * cDef.atom_size + 0 : ℕ) : ℤ)
      = projRow cDef 0 0 (fun _ => 0) ((0 : ℕ) : ℤ) := by
  have h := C8_projection_row_isolation cDef (by norm_num [cDef]) (by norm_num [cDef]) 1
    (fun _ => 0) (fun _ => 0) (fun _ _ => 0) 0 0 (by norm_num) (by norm_num [cDef])
  exact ⟨h.1.1, h.2.2.2.2 0 (by norm_num [cDef])⟩

/-- One transition as stored by ReplayBuffer.store: the source keeps
observations as float vectors and actions, rewards and done flags as
floats (done is stored into a float buffer). -/
structure Transition where
  obs : List ℚ
  act : ℚ
  rew : ℚ
  next_obs : List ℚ
  done : ℚ

/-- The numpy replay buffer: five parallel fixed-length arrays, the write
cursor ptr and the size counter. -/
structure ReplayBuffer where
  obs_buf : List (List ℚ)
  next_obs_buf : List (List ℚ)
  acts_buf : List ℚ
  rews_buf : List ℚ
  done_buf : List ℚ
  max_size : ℕ
  batch_size : ℕ
  ptr : ℕ
  size : ℕ

/-- ReplayBuffer.__init__: np.zeros buffers of length size, ptr = 0,
size = 0. -/
def ReplayBuffer.init (obs_dim sz bs : ℕ) : ReplayBuffer :=
  ⟨List.replicate sz (List.replicate obs_dim 0),
   List.replicate sz (List.replicate obs_dim 0),
   List.replicate sz 0, List.replicate sz 0, List.replicate sz 0,
   sz, bs, 0, 0⟩

/-- ReplayBuffer.store: write every field into slot ptr, then
ptr = (ptr + 1) % max_size and size = min (size + 1) max_size. -/
def ReplayBuffer.store (b : ReplayBuffer) (t : Transition) : ReplayBuffer :=
  ⟨b.obs_buf.set b.ptr t.obs,
   b.next_obs_buf.set b.ptr t.next_obs,
   b.acts_buf.set b.ptr t.act,
   b.rews_buf.set b.ptr t.rew,
   b.done_buf.set b.ptr t.done,
   b.max_size, b.batch_size,
   (b.ptr + 1) % b.max_size,
   min (b.size + 1) b.max_size⟩

/-- ReplayBuffer.__len__: the current size. -/
def ReplayBuffer.lenB (b : ReplayBuffer) : ℕ := b.size

/-- Iterated store of a whole list of transitions. -/
def storeAll (b : ReplayBuffer) (ts : List Transition) : ReplayBuffer :=
  ts.foldl ReplayBuffer.store b

lemma getD_set_self {α : Type} (l : List α) (p : ℕ) (v d : α) (h : p < l.length) :
    (l.set p v).getD p d = v := by
  induction l generalizing p with
  | nil => simp at h
  | cons a tl ih =>
      cases p with
      | zero => rfl
      | succ q =>
          rw [List.set_cons_succ, List.getD_cons_succ]
          exact ih q (by simpa using h)

lemma getD_set_ne {α : Type} (l : List α) (p q : ℕ) (v d : α) (h : p ≠ q) :
    (l.set p v).getD q d = l.getD q d := by
  induction l generalizing p q with
  | nil => rfl
  | cons a tl ih =>
      cases p with
      | zero =>
          cases q with
          | zero => exact absurd rfl h
          | succ q2 => rfl
      | succ p2 =>
          cases q with
          | zero => rfl
          | succ q2 =>
              rw [List.set_cons_succ, List.getD_cons_succ, List.getD_cons_succ]
              exact ih p2 q2 (fun he => h (by rw [he]))

lemma storeAll_snoc (b : ReplayBuffer) (ts : List Transition) (t : Transition) :
    storeAll b (ts ++ [t]) = (storeAll b ts).store t := by
  rw [storeAll, storeAll, List.foldl_append]
  rfl

/-- After storing any list of transitions into a fresh buffer of capacity
C: ptr is the store count mod C, size is min count C, every array keeps
length C, and slot i % C holds transition i for each of the C most recent
indices i. -/
lemma storeAll_inv (C obs_dim bs : ℕ) (hC : 0 < C) (ts : List Transition) :
    (storeAll (ReplayBuffer.init obs_dim C bs) ts).max_size = C
    ∧ (storeAll (ReplayBuffer.init obs_dim C bs) ts).ptr = ts.length % C
    ∧ (storeAll (ReplayBuffer.init obs_dim C bs) ts).size = min ts.length C
    ∧ (storeAll (ReplayBuffer.init obs_dim C bs) ts).obs_buf.length = C
    ∧ (storeAll (ReplayBuffer.init obs_dim C bs) ts).next_obs_buf.length = C
    ∧ (storeAll (ReplayBuffer.init obs_dim C bs) ts).acts_buf.length = C
    ∧ (storeAll (ReplayBuffer.init obs_dim C bs) ts).rews_buf.length = C
    ∧ (storeAll (ReplayBuffer.init obs_dim C bs) ts).done_buf.length = C
    ∧ ∀ i (h : i < ts.length), ts.length ≤ i + C →
        (storeAll (ReplayBuffer.init obs_dim C bs) ts).obs_buf.getD (i % C) []
            = (ts.get ⟨i, h⟩).obs
        ∧ (storeAll (ReplayBuffer.init obs_dim C bs) ts).next_obs_buf.getD (i % C) []
            = (ts.get ⟨i, h⟩).next_obs
        ∧ (storeAll (ReplayBuffer.init obs_dim C bs) ts).acts_buf.getD (i % C) 0
            = (ts.get ⟨i, h⟩).act
        ∧ (storeAll (ReplayBuffer.init obs_dim C bs) ts).rews_buf.getD (i % C) 0
            = (ts.get ⟨i, h⟩).rew
        ∧ (storeAll (ReplayBuffer.init obs_dim C bs) ts).done_buf.getD (i % C) 0
            = (ts.get ⟨i, h⟩).done := by
  induction ts using List.reverseRecOn with
  | nil =>
      refine ⟨rfl, by simp [storeAll, ReplayBuffer.init], by simp [storeAll, ReplayBuffer.init],
        by simp [storeAll, ReplayBuffer.init], by simp [storeAll, ReplayBuffer.init],
        by simp [storeAll, ReplayBuffer.init], by simp [storeAll, ReplayBuffer.init],
        by simp [storeAll, ReplayBuffer.init], fun i h _ => absurd h (by simp)⟩
  | append_singleton ts t ih =>
      obtain ⟨hms, hptr, hsz, hL1, hL2, hL3, hL4, hL5, hslot⟩ := ih
      rw [storeAll_snoc]
      have hLen : (ts ++ [t]).length = ts.length + 1 := by simp
      have hptr2 : ((storeAll (ReplayBuffer.init obs_dim C bs) ts).ptr + 1) % C
          = (ts.length + 1) % C := by
        rw [hptr]
        have hmod := (Nat.mod_modEq ts.length C).add_right 1
        simpa [Nat.ModEq] using hmod
      refine ⟨hms, ?_, ?_, ?_, ?_, ?_, ?_, ?_, ?_⟩
      · show ((storeAll (ReplayBuffer.init obs_dim C bs) ts).ptr + 1)
            % (storeAll (ReplayBuffer.init obs_dim C bs) ts).max_size = (ts ++ [t]).length % C
        rw [hms, hLen, hptr2]
      · show min ((storeAll (ReplayBuffer.init obs_dim C bs) ts).size + 1)
            (storeAll (ReplayBuffer.init obs_dim C bs) ts).max_size = min (ts ++ [t]).length C
        rw [hms, hsz, hLen]
        omega
      · show ((storeAll (ReplayBuffer.init obs_dim C bs) ts).obs_buf.set _ _).length = C
        rw [List.length_set, hL1]
      · show ((storeAll (ReplayBuffer.init obs_dim C bs) ts).next_obs_buf.set _ _).length = C
        rw [List.length_set, hL2]
      · show ((storeAll (ReplayBuffer.init obs_dim C bs) ts).acts_buf.set _ _).length = C
        rw [List.length_set, hL3]
      · show ((storeAll (ReplayBuffer.init obs_dim C bs) ts).rews_buf.set _ _).length = C
        rw [List.length_set, hL4]
      · show ((storeAll (ReplayBuffer.init obs_dim C bs) ts).done_buf.set _ _).length = C
        rw [List.length_set, hL5]
      · intro i h hrecent
        rw [hLen] at hrecent
        have hiL : i < ts.length + 1 := by
          have := h
          rwa [hLen] at this
        rcases Nat.lt_or_ge i ts.length with hlt | hge
        · have hne : i % C ≠ ts.length % C := by
            intro he
            have hdvd : C ∣ ts.length - i := (Nat.modEq_iff_dvd' hlt.le).mp he
            have hle2 : C ≤ ts.length - i := Nat.le_of_dvd (by omega) hdvd
            omega
          have hget : (ts ++ [t]).get ⟨i, h⟩ = ts.get ⟨i, hlt⟩ := by
            rw [List.get_eq_getElem, List.get_eq_getElem]
            exact List.getElem_append_left hlt
          obtain ⟨e1, e2, e3, e4, e5⟩ := hslot i hlt (by omega)
          rw [hget]
          refine ⟨?_, ?_, ?_, ?_, ?_⟩
          · show ((storeAll (ReplayBuffer.init obs_dim C bs) ts).obs_buf.set
                (storeAll (ReplayBuffer.init obs_dim C bs) ts).ptr t.obs).getD (i % C) [] = _
            rw [hptr, getD_set_ne _ _ _ _ _ (fun he => hne (by rw [he])), e1]
          · show ((storeAll (ReplayBuffer.init obs_dim C bs) ts).next_obs_buf.set
                (storeAll (ReplayBuffer.init obs_dim C bs) ts).ptr t.next_obs).getD (i % C) [] = _
            rw [hptr, getD_set_ne _ _ _ _ _ (fun he => hne (by rw [he])), e2]
          · show ((storeAll (ReplayBuffer.init obs_dim C bs) ts).acts_buf.set
                (storeAll (ReplayBuffer.init obs_dim C bs) ts).ptr t.act).getD (i % C) 0 = _
            rw [hptr, getD_set_ne _ _ _ _ _ (fun he => hne (by rw [he])), e3]
          · show ((storeAll (ReplayBuffer.init obs_dim C bs) ts).rews_buf.set
                (storeAll (ReplayBuffer.init obs_dim C bs) ts).ptr t.rew).getD (i % C) 0 = _
            rw [hptr, getD_set_ne _ _ _ _ _ (fun he => hne (by rw [he])), e4]
          · show ((storeAll (ReplayBuffer.init obs_dim C bs) ts).done_buf.set
                (storeAll (ReplayBuffer.init obs_dim C bs) ts).ptr t.done).getD (i % C) 0 = _
            rw [hptr, getD_set_ne _ _ _ _ _ (fun he => hne (by rw [he])), e5]
        · have hiEq : i = ts.length := by omega
          subst hiEq
          have hget : (ts ++ [t]).get ⟨ts.length, h⟩ = t := by
            rw [List.get_eq_getElem]
            exact List.getElem_concat_length ts t ts.length rfl h
          rw [hget]
          have hmod : ts.length % C < C := Nat.mod_lt _ hC
          refine ⟨?_, ?_, ?_, ?_, ?_⟩
          · show ((storeAll (ReplayBuffer.init obs_dim C bs) ts).obs_buf.set
                (storeAll (ReplayBuffer.init obs_dim C bs) ts).ptr t.obs).getD (ts.length % C) []
                = t.obs
            rw [hptr]
            exact getD_set_self _ _ _ _ (by rw [hL1]; exact hmod)
          · show ((storeAll (ReplayBuffer.init obs_dim C bs) ts).next_obs_buf.set
                (storeAll (ReplayBuffer.init obs_dim C bs) ts).ptr t.next_obs).getD
                (ts.length % C) [] = t.next_obs
            rw [hptr]
            exact getD_set_self _ _ _ _ (by rw [hL2]; exact hmod)
          · show ((storeAll (ReplayBuffer.init obs_dim C bs) ts).acts_buf.set
                (storeAll (ReplayBuffer.init obs_dim C bs) ts).ptr t.act).getD (ts.length % C) 0
                = t.act
            rw [hptr]
            exact getD_set_self _ _ _ _ (by rw [hL3]; exact hmod)
          · show ((storeAll (ReplayBuffer.init obs_dim C bs) ts).rews_buf.set
                (storeAll (ReplayBuffer.init obs_dim C bs) ts).ptr t.rew).getD (ts.length % C) 0
                = t.rew
            rw [hptr]
            exact getD_set_self _ _ _ _ (by rw [hL4]; exact hmod)
          · show ((storeAll (ReplayBuffer.init obs_dim C bs) ts).done_buf.set
                (storeAll (ReplayBuffer.init obs_dim C bs) ts).ptr t.done).getD (ts.length % C) 0
                = t.done
            rw [hptr]
            exact getD_set_self _ _ _ _ (by rw [hL5]; exact hmod)

/-- C5: every store writes the transition into slot ptr of each parallel
array and then advances ptr = (ptr + 1) mod capacity and
size = min (size + 1) capacity (store is a total function, it never
fails); and after storing N > capacity transitions into a fresh buffer,
len() = capacity and slot i mod capacity holds transition i for every one
of the capacity most recent indices i, i.e. the buffer holds exactly the
most recent capacity transitions with the oldest overwritten in FIFO
order. -/
theorem C5_store_ring_fifo (C obs_dim bs : ℕ) (hC : 0 < C) (ts : List Transition)
    (hN : C < ts.length) :
    (∀ (b : ReplayBuffer) (t : Transition),
        (b.store t).obs_buf = b.obs_buf.set b.ptr t.obs
        ∧ (b.store t).next_obs_buf = b.next_obs_buf.set b.ptr t.next_obs
        ∧ (b.store t).acts_buf = b.acts_buf.set b.ptr t.act
        ∧ (b.store t).rews_buf = b.rews_buf.set b.ptr t.rew
        ∧ (b.store t).done_buf = b.done_buf.set b.ptr t.done
        ∧ (b.store t).ptr = (b.ptr + 1) % b.max_size
        ∧ (b.store t).size = min (b.size + 1) b.max_size)
    ∧ (storeAll (ReplayBuffer.init obs_dim C bs) ts).lenB = C
    ∧ ∀ i (h : i < ts.length), ts.length - C ≤ i →
        (storeAll (ReplayBuffer.init obs_dim C bs) ts).obs_buf.getD (i % C) []
            = (ts.get ⟨i, h⟩).obs
        ∧ (storeAll (ReplayBuffer.init obs_dim C bs) ts).next_obs_buf.getD (i % C) []
            = (ts.get ⟨i, h⟩).next_obs
        ∧ (storeAll (ReplayBuffer.init obs_dim C bs) ts).acts_buf.getD (i % C) 0
            = (ts.get ⟨i, h⟩).act
        ∧ (storeAll (ReplayBuffer.init obs_dim C bs) ts).rews_buf.getD (i % C) 0
            = (ts.get ⟨i, h⟩).rew
        ∧ (storeAll (ReplayBuffer.init obs_dim C bs) ts).done_buf.getD (i % C) 0
            = (ts.get ⟨i, h⟩).done := by
  obtain ⟨hms, hptr, hsz, hL1, hL2, hL3, hL4, hL5, hslot⟩ := storeAll_inv C obs_dim bs hC ts
  refine ⟨fun b t => ⟨rfl, rfl, rfl, rfl, rfl, rfl, rfl⟩, ?_, ?_⟩
  · rw [ReplayBuffer.lenB, hsz]
    omega
  · intro i h hge
    exact hslot i h (by omega)

/-- Three concrete transitions for the C5 witness. -/
def tW0 : Transition := ⟨[1], 0, 10, [2], 0⟩

def tW1 : Transition := ⟨[2], 1, 20, [3], 0⟩

def tW2 : Transition := ⟨[3], 0, 30, [4], 1⟩

def tsW : List Transition := [tW0, tW1, tW2]

theorem C5_store_ring_fifo_witness :
    (storeAll (ReplayBuffer.init 1 2 1) tsW).lenB = 2
    ∧ (storeAll (ReplayBuffer.init 1 2 1) tsW).rews_buf.getD (2 % 2) 0
        = (tsW.get ⟨2, by norm_num [tsW]⟩).rew
    ∧ (storeAll (ReplayBuffer.init 1 2 1) tsW).rews_buf.getD (1 % 2) 0
        = (tsW.get ⟨1, by norm_num [tsW]⟩).rew := by
  have h := C5_store_ring_fifo 2 1 1 (by norm_num) tsW (by norm_num [tsW])
  exact ⟨h.2.1, (h.2.2 2 (by norm_num [tsW]) (by norm_num [tsW])).2.2.2.1,
    (h.2.2 1 (by norm_num [tsW]) (by norm_num [tsW])).2.2.2.1⟩

/-- Model of np.random.choice(n, size=k, replace=False) seen as drawing
without replacement from a pool: the stream supplies the random draws;
each step removes the drawn element from the pool. -/
def swr (stream : ℕ → ℕ) : ℕ → ℕ → List ℕ → List ℕ
  | _, 0, _ => []
  | t, k + 1, pool =>
      let a := pool.getD (stream t % pool.length) 0
      a :: swr stream (t + 1) k (pool.erase a)

lemma swr_succ (stream : ℕ → ℕ) (t k : ℕ) (pool : List ℕ) :
    swr stream t (k + 1) pool
      = (pool.getD (stream t % pool.length) 0)
          :: swr stream (t + 1) k (pool.erase (pool.getD (stream t % pool.length) 0)) := rfl

/-- Drawing k ≤ pool.length elements without replacement from a duplicate
free pool yields k pairwise distinct elements of the pool. -/
lemma swr_spec (stream : ℕ → ℕ) (k : ℕ) : ∀ (t : ℕ) (pool : List ℕ),
    pool.Nodup → k ≤ pool.length →
    (swr stream t k pool).length = k
    ∧ (swr stream t k pool).Nodup
    ∧ ∀ x ∈ swr stream t k pool, x ∈ pool := by
  induction k with
  | zero =>
      intro t pool _ _
      exact ⟨rfl, List.nodup_nil, by intro x hx; simp [swr] at hx⟩
  | succ k ih =>
      intro t pool hnd hlen
      have hpos : 0 < pool.length := by omega
      have hj : stream t % pool.length < pool.length := Nat.mod_lt _ hpos
      have hmem : pool.getD (stream t % pool.length) 0 ∈ pool := by
        rw [List.getD_eq_getElem pool 0 hj]
        exact List.getElem_mem hj
      have hlen2 : (pool.erase (pool.getD (stream t % pool.length) 0)).length
          = pool.length - 1 := List.length_erase_of_mem hmem
      have hnd2 : (pool.erase (pool.getD (stream t % pool.length) 0)).Nodup := hnd.erase _
      have hk : k ≤ (pool.erase (pool.getD (stream t % pool.length) 0)).length := by omega
      obtain ⟨ihl, ihn, ihm⟩ := ih (t + 1) (pool.erase (pool.getD (stream t % pool.length) 0))
        hnd2 hk
      have hnotmem : pool.getD (stream t % pool.length) 0
          ∉ swr stream (t + 1) k (pool.erase (pool.getD (stream t % pool.length) 0)) := by
        intro hmem2
        have hin := ihm _ hmem2
        rw [List.Nodup.mem_erase_iff hnd] at hin
        exact hin.1 rfl
      refine ⟨?_, ?_, ?_⟩
      · rw [swr_succ, List.length_cons, ihl]
      · rw [swr_succ]
        exact List.nodup_cons.mpr ⟨hnotmem, ihn⟩
      · intro x hx
        rw [swr_succ, List.mem_cons] at hx
        rcases hx with rfl | hx
        · exact hmem
        · exact List.mem_of_mem_erase (ihm x hx)

/-- ReplayBuffer.sample_batch: idxs = np.random.choice(size, batch_size,
replace=False), failing when batch_size > size (numpy raises), then the
dict of the five buffers fancy-indexed by idxs, in source order
(obs, next_obs, acts, rews, done). -/
def ReplayBuffer.sample_batch (b : ReplayBuffer) (stream : ℕ → ℕ) :
    Except String (List ℕ × List (List ℚ) × List (List ℚ) × List ℚ × List ℚ × List ℚ) :=
  if h : b.batch_size ≤ b.size then
    Except.ok ⟨swr stream 0 b.batch_size (List.range b.size),
      (swr stream 0 b.batch_size (List.range b.size)).map (fun i => b.obs_buf.getD i []),
      (swr stream 0 b.batch_size (List.range b.size)).map (fun i => b.next_obs_buf.getD i []),
      (swr stream 0 b.batch_size (List.range b.size)).map (fun i => b.acts_buf.getD i 0),
      (swr stream 0 b.batch_size (List.range b.size)).map (fun i => b.rews_buf.getD i 0),
      (swr stream 0 b.batch_size (List.range b.size)).map (fun i => b.done_buf.getD i 0)⟩
  else Except.error "InsufficientDataError"

/-- C6: whenever batch_size ≤ size, sample_batch returns batch_size
pairwise distinct indices drawn from [0, size) together with the five
parallel arrays obtained by indexing the buffers at those indices; and
whenever batch_size > size it fails with an error, never silently
succeeding. -/
theorem C6_sample_batch_distinct_or_fails (b : ReplayBuffer) (stream : ℕ → ℕ) :
    (b.batch_size ≤ b.size →
      ∃ idxs : List ℕ,
        b.sample_batch stream
          = Except.ok ⟨idxs, idxs.map (fun i => b.obs_buf.getD i []),
              idxs.map (fun i => b.next_obs_buf.getD i []),
              idxs.map (fun i => b.acts_buf.getD i 0),
              idxs.map (fun i => b.rews_buf.getD i 0),
              idxs.map (fun i => b.done_buf.getD i 0)⟩
        ∧ idxs.length = b.batch_size
        ∧ idxs.Nodup
        ∧ ∀ x ∈ idxs, x < b.size)
    ∧ (b.size < b.batch_size
        → b.sample_batch stream = Except.error "InsufficientDataError") := by
  constructor
  · intro hle
    obtain ⟨hl, hn, hm⟩ := swr_spec stream b.batch_size 0 (List.range b.size)
      (List.nodup_range b.size) (by simpa using hle)
    refine ⟨swr stream 0 b.batch_size (List.range b.size), ?_, hl, hn,
      fun x hx => List.mem_range.mp (hm x hx)⟩
    rw [ReplayBuffer.sample_batch, dif_pos hle]
  · intro hlt
    rw [ReplayBuffer.sample_batch, dif_neg (by omega)]

/-- A concrete filled buffer for the C6 witness: capacity 3, batch size 2,
size 3. -/
def bufW : ReplayBuffer :=
  ⟨[[1], [2], [3]], [[2], [3], [4]], [0, 1, 0], [10, 20, 30], [0, 0, 1], 3, 2, 0, 3⟩

theorem C6_sample_batch_distinct_or_fails_witness :
    ∃ idxs : List ℕ,
      bufW.sample_batch (fun n => n)
        = Except.ok ⟨idxs, idxs.map (fun i => bufW.obs_buf.getD i []),
            idxs.map (fun i => bufW.next_obs_buf.getD i []),
            idxs.map (fun i => bufW.acts_buf.getD i 0),
            idxs.map (fun i => bufW.rews_buf.getD i 0),
            idxs.map (fun i => bufW.done_buf.getD i 0)⟩
      ∧ idxs.length = bufW.batch_size
      ∧ idxs.Nodup
      ∧ ∀ x ∈ idxs, x < bufW.size :=
  (C6_sample_batch_distinct_or_fails bufW (fun n => n)).1 (by norm_num [bufW])

/-- Hyperparameters of DQNAgent.train that drive the epsilon schedule and
the update gate. -/
structure TrainCfg where
  batch_size : ℕ
  capacity : ℕ
  min_epsilon : ℚ
  max_epsilon : ℚ
  epsilon_decay : ℚ

/-- The mutable training-loop state: epsilon, update_cnt and the replay
buffer length. -/
structure TrainSt where
  epsilon : ℚ
  update_cnt : ℕ
  memLen : ℕ

/-- One frame of DQNAgent.train: select_action, env step and memory.store
grow len(memory) to min (len + 1) capacity; then, only if the new
len(memory) ≥ batch_size, update_model runs, update_cnt increments, and
epsilon = max(min_epsilon,
epsilon - (max_epsilon - min_epsilon) * epsilon_decay); otherwise epsilon
and update_cnt are untouched. -/
def trainFrame (cfg : TrainCfg) (s : TrainSt) : TrainSt :=
  if cfg.batch_size ≤ min (s.memLen + 1) cfg.capacity then
    ⟨max cfg.min_epsilon
        (s.epsilon - (cfg.max_epsilon - cfg.min_epsilon) * cfg.epsilon_decay),
     s.update_cnt + 1, min (s.memLen + 1) cfg.capacity⟩
  else ⟨s.epsilon, s.update_cnt, min (s.memLen + 1) cfg.capacity⟩

lemma trainFrame_pos (cfg : TrainCfg) (s : TrainSt)
    (hc : cfg.batch_size ≤ min (s.memLen + 1) cfg.capacity) :
    trainFrame cfg s
      = ⟨max cfg.min_epsilon
            (s.epsilon - (cfg.max_epsilon - cfg.min_epsilon) * cfg.epsilon_decay),
         s.update_cnt + 1, min (s.memLen + 1) cfg.capacity⟩ := by
  rw [trainFrame, if_pos hc]

lemma trainFrame_neg (cfg : TrainCfg) (s : TrainSt)
    (hc : ¬ cfg.batch_size ≤ min (s.memLen + 1) cfg.capacity) :
    trainFrame cfg s = ⟨s.epsilon, s.update_cnt, min (s.memLen + 1) cfg.capacity⟩ := by
  rw [trainFrame, if_neg hc]

/-- C7: starting from the constructed state (epsilon = max_epsilon), with
min_epsilon ≤ max_epsilon and a nonnegative decay rate, epsilon never
drops below min_epsilon, is monotonically non-increasing across frames,
is decreased exactly once per successful update by the fixed additive
step (max_epsilon - min_epsilon) * epsilon_decay floored at min_epsilon
with the update counter incremented; and on frames where the buffer
length stays below batch_size neither epsilon nor the update counter
changes. -/
theorem C7_epsilon_schedule (cfg : TrainCfg) (hme : cfg.min_epsilon ≤ cfg.max_epsilon)
    (hdec : 0 ≤ cfg.epsilon_decay) (s0 : TrainSt) (h0 : s0.epsilon = cfg.max_epsilon) :
    (∀ n, cfg.min_epsilon ≤ ((trainFrame cfg)^[n] s0).epsilon)
    ∧ (∀ n, ((trainFrame cfg)^[n + 1] s0).epsilon ≤ ((trainFrame cfg)^[n] s0).epsilon)
    ∧ (∀ n, cfg.batch_size ≤ min (((trainFrame cfg)^[n] s0).memLen + 1) cfg.capacity →
        ((trainFrame cfg)^[n + 1] s0).epsilon
          = max cfg.min_epsilon (((trainFrame cfg)^[n] s0).epsilon
              - (cfg.max_epsilon - cfg.min_epsilon) * cfg.epsilon_decay)
        ∧ ((trainFrame cfg)^[n + 1] s0).update_cnt
            = ((trainFrame cfg)^[n] s0).update_cnt + 1)
    ∧ ∀ n, ¬ cfg.batch_size ≤ min (((trainFrame cfg)^[n] s0).memLen + 1) cfg.capacity →
        ((trainFrame cfg)^[n + 1] s0).epsilon = ((trainFrame cfg)^[n] s0).epsilon
        ∧ ((trainFrame cfg)^[n + 1] s0).update_cnt = ((trainFrame cfg)^[n] s0).update_cnt := by
  have hstep : ∀ s : TrainSt, cfg.min_epsilon ≤ s.epsilon
      → cfg.min_epsilon ≤ (trainFrame cfg s).epsilon := by
    intro s hs
    by_cases hc : cfg.batch_size ≤ min (s.memLen + 1) cfg.capacity
    · rw [trainFrame_pos cfg s hc]
      exact le_max_left _ _
    · rw [trainFrame_neg cfg s hc]
      exact hs
  have hinv : ∀ n, cfg.min_epsilon ≤ ((trainFrame cfg)^[n] s0).epsilon := by
    intro n
    induction n with
    | zero => rw [Function.iterate_zero_apply, h0]; exact hme
    | succ n ih =>
        rw [Function.iterate_succ_apply']
        exact hstep _ ih
  refine ⟨hinv, ?_, ?_, ?_⟩
  · intro n
    rw [Function.iterate_succ_apply']
    by_cases hc : cfg.batch_size ≤ min (((trainFrame cfg)^[n] s0).memLen + 1) cfg.capacity
    · rw [trainFrame_pos _ _ hc]
      exact max_le (hinv n) (sub_le_self _ (mul_nonneg (by linarith) hdec))
    · rw [trainFrame_neg _ _ hc]
  · intro n hc
    rw [Function.iterate_succ_apply', trainFrame_pos _ _ hc]
    exact ⟨rfl, rfl⟩
  · intro n hc
    rw [Function.iterate_succ_apply', trainFrame_neg _ _ hc]
    exact ⟨rfl, rfl⟩

/-- Training configuration for the C7 witness. -/
def cfgW : TrainCfg := ⟨1, 2, 1 / 10, 1, 1 / 100⟩

/-- Constructed training-loop state for the C7 witness. -/
def s0W : TrainSt := ⟨1, 0, 0⟩

theorem C7_epsilon_schedule_witness :
    ((1 : ℚ) / 10 ≤ ((trainFrame cfgW)^[3] s0W).epsilon)
    ∧ ((trainFrame cfgW)^[1] s0W).update_cnt = ((trainFrame cfgW)^[0] s0W).update_cnt + 1 := by
  have h := C7_epsilon_schedule cfgW (by norm_num [cfgW]) (by norm_num [cfgW]) s0W rfl
  exact ⟨h.1 3, (h.2.2.1 0 (by norm_num [cfgW, s0W])).2⟩

/-- Constructor arguments of DQNAgent together with the two environment
dimensions read at construction (observation_space.shape[0] and
action_space.n). -/
structure AgentConfig where
  obs_dim : ℕ
  action_dim : ℕ
  memory_size : ℕ
  batch_size : ℕ
  target_update : ℕ
  epsilon_decay : ℚ
  max_epsilon : ℚ
  min_epsilon : ℚ
  gamma : ℚ
  v_min : ℚ
  v_max : ℚ
  atom_size : ℕ

/-- The trainable parameters of Network: three Linear layers. -/
structure NetParams where
  w1 : List (List ℚ)
  b1 : List ℚ
  w2 : List (List ℚ)
  b2 : List ℚ
  w3 : List (List ℚ)
  b3 : List ℚ

def dotQ (xs ys : List ℚ) : ℚ := ((xs.zip ys).map (fun ab => ab.1 * ab.2)).sum

def matVec (w : List (List ℚ)) (x : List ℚ) : List ℚ := w.map (fun row => dotQ row x)

def vecAdd (xs ys : List ℚ) : List ℚ := (xs.zip ys).map (fun ab => ab.1 + ab.2)

/-- ReLU applied componentwise. -/
def reluV (xs : List ℚ) : List ℚ := xs.map (fun a => max a 0)

/-- Network.layers: Linear, ReLU, Linear, ReLU, Linear. -/
def mlp (p : NetParams) (x : List ℚ) : List ℚ :=
  vecAdd (matVec p.w3 (reluV (vecAdd (matVec p.w2
    (reluV (vecAdd (matVec p.w1 x) p.b1))) p.b2))) p.b3

/-- Network.dist: reshape the raw scores to [out_dim, atom_size], softmax
along the atom axis, then clamp(min=1e-3). The exponential of the softmax
is passed in as an arbitrary function e (exp is transcendental, so it is
kept abstract); every statement below holds for every e. -/
def netDist (e : ℚ → ℚ) (atom_size : ℕ) (p : NetParams) (x : List ℚ) (a i : ℕ) : ℚ :=
  max (1 / 1000)
    (e ((mlp p x).getD (a * atom_size + i) 0)
      / ∑ j ∈ Finset.range atom_size, e ((mlp p x).getD (a * atom_size + j) 0))

/-- Network.forward: q = sum over atoms of dist * support. -/
def netQ (e : ℚ → ℚ) (atom_size : ℕ) (supp : ℕ → ℚ) (p : NetParams) (x : List ℚ)
    (a : ℕ) : ℚ :=
  ∑ i ∈ Finset.range atom_size, netDist e atom_size p x a i * supp i

/-- torch argmax over the action axis: index of the first maximum. -/
def argmaxQ (f : ℕ → ℚ) (n : ℕ) : ℕ :=
  (List.range n).foldl (fun best a => if f best < f a then a else best) 0

/-- The state of DQNAgent after construction. -/
structure AgentState where
  obs_dim : ℕ
  action_dim : ℕ
  memory : ReplayBuffer
  batch_size : ℕ
  epsilon : ℚ
  epsilon_decay : ℚ
  max_epsilon : ℚ
  min_epsilon : ℚ
  target_update : ℕ
  gamma : ℚ
  v_min : ℚ
  v_max : ℚ
  atom_size : ℕ
  dqn : NetParams
  dqn_target : NetParams
  transition : List ℚ × ℕ
  is_test : Bool

/-- DQNAgent.__init__ translated assignment by assignment: the fresh
online parameters are an argument (torch initialises them randomly),
dqn_target.load_state_dict(dqn.state_dict()) makes the target a copy of
the online parameters, epsilon starts at max_epsilon, the memory is a
fresh ReplayBuffer(obs_dim, memory_size, batch_size), the pending
transition list starts empty (modelled by a dummy pair) and is_test is
False. The body contains no validation and no failure path. -/
def DQNAgent.init (cfg : AgentConfig) (p0 : NetParams) : AgentState :=
  ⟨cfg.obs_dim, cfg.action_dim,
   ReplayBuffer.init cfg.obs_dim cfg.memory_size cfg.batch_size,
   cfg.batch_size, cfg.max_epsilon, cfg.epsilon_decay, cfg.max_epsilon, cfg.min_epsilon,
   cfg.target_update, cfg.gamma, cfg.v_min, cfg.v_max, cfg.atom_size,
   p0, p0, ([], 0), false⟩

/-- DQNAgent construction viewed as a fallible computation: since the
body of __init__ raises nothing, it always returns the constructed
agent. -/
def DQNAgent.initE (cfg : AgentConfig) (p0 : NetParams) : Except String AgentState :=
  Except.ok (DQNAgent.init cfg p0)

/-- Empty parameter blob used by concrete witnesses. -/
def p0W : NetParams := ⟨[], [], [], [], [], []⟩

/-- A configuration violating all three conditions of the claimed
ConfigurationError: atom_size = 1 < 2, v_min = 1 ≥ 0 = v_max, and
batch_size = 5 > 3 = memory_size. -/
def badCfg : AgentConfig := ⟨4, 2, 3, 5, 10, 1 / 2000, 1, 1 / 10, 99 / 100, 1, 0, 1⟩

/-- C4 counterexample: for a configuration violating every claimed
condition (atom_size < 2, v_min ≥ v_max, batch_size > memory_size),
construction still succeeds: __init__ performs no validation. -/
theorem C4_construction_succeeds_on_invalid_config :
    (badCfg.atom_size < 2 ∧ badCfg.v_max ≤ badCfg.v_min
      ∧ badCfg.memory_size < badCfg.batch_size)
    ∧ (DQNAgent.initE badCfg p0W).isOk = true := by
  refine ⟨⟨?_, ?_, ?_⟩, rfl⟩ <;> norm_num [badCfg]

/-- C4 (amended): agent construction never fails, for any configuration
whatsoever; it just records the fields (epsilon = max_epsilon, a fresh
empty buffer of capacity memory_size, target a copy of the online
parameters, train mode). Invalid configurations surface only later, not
at construction. -/
theorem C4_construction_never_fails (cfg : AgentConfig) (p0 : NetParams) :
    DQNAgent.initE cfg p0 = Except.ok (DQNAgent.init cfg p0)
    ∧ (DQNAgent.init cfg p0).epsilon = cfg.max_epsilon
    ∧ (DQNAgent.init cfg p0).memory.max_size = cfg.memory_size
    ∧ (DQNAgent.init cfg p0).memory.size = 0
    ∧ (DQNAgent.init cfg p0).dqn_target = (DQNAgent.init cfg p0).dqn
    ∧ (DQNAgent.init cfg p0).is_test = false :=
  ⟨rfl, rfl, rfl, rfl, rfl, rfl⟩

/-- DQNAgent._target_hard_update:
dqn_target.load_state_dict(dqn.state_dict()). -/
def targetHardUpdate (s : AgentState) : AgentState := { s with dqn_target := s.dqn }

/-- C9: immediately after the hard sync the online and target parameters
are identical, so on any identical input the two models produce equal
distributions and equal action values (for every softmax exponential
e). -/
theorem C9_hard_sync_equalizes (s : AgentState) (e : ℚ → ℚ) (x : List ℚ) (a i : ℕ) :
    (targetHardUpdate s).dqn_target = (targetHardUpdate s).dqn
    ∧ netDist e (targetHardUpdate s).atom_size (targetHardUpdate s).dqn_target x a i
        = netDist e (targetHardUpdate s).atom_size (targetHardUpdate s).dqn x a i
    ∧ netQ e (targetHardUpdate s).atom_size
          (support ⟨s.v_min, s.v_max, s.atom_size, s.gamma⟩)
          (targetHardUpdate s).dqn_target x a
        = netQ e (targetHardUpdate s).atom_size
            (support ⟨s.v_min, s.v_max, s.atom_size, s.gamma⟩)
            (targetHardUpdate s).dqn x a :=
  ⟨rfl, rfl, rfl⟩

/-- DQNAgent.select_action: with probability epsilon (epsilon >
np.random.random(), the draw passed in as rand) a random action (the
env.action_space.sample() draw passed in as randAct), otherwise the
argmax of the online action values; in train mode the pending
half-transition [state, action] is recorded. -/
def selectAction (e : ℚ → ℚ) (rand : ℚ) (randAct : ℕ) (x : List ℚ) (s : AgentState) :
    ℕ × AgentState :=
  let act := if rand < s.epsilon then randAct
    else argmaxQ
      (fun a => netQ e s.atom_size (support ⟨s.v_min, s.v_max, s.atom_size, s.gamma⟩)
        s.dqn x a) s.action_dim
  (act, if s.is_test then s else { s with transition := (x, act) })

/-- DQNAgent.step: the environment response (next_state, reward, done) is
passed in; in train mode the pending transition is completed and stored
into the replay buffer (done is stored as a float). -/
def agentStep (next_obs : List ℚ) (rew : ℚ) (dn : Bool) (s : AgentState) :
    (List ℚ × ℚ × Bool) × AgentState :=
  ((next_obs, rew, dn),
   if s.is_test then s
   else { s with memory := (s.memory.store
      ⟨s.transition.1, (s.transition.2 : ℚ), rew, next_obs, if dn then 1 else 0⟩) })

/-- One agent-facing call of a test episode: either a select_action call
or an environment step. -/
inductive AgentOp where
  | sel : (ℚ → ℚ) → ℚ → ℕ → List ℚ → AgentOp
  | env : List ℚ → ℚ → Bool → AgentOp

def applyOp (op : AgentOp) (s : AgentState) : AgentState :=
  match op with
  | AgentOp.sel e rand randAct x => (selectAction e rand randAct x s).2
  | AgentOp.env nx rw dn => (agentStep nx rw dn s).2

lemma applyOp_test (op : AgentOp) (s : AgentState) (h : s.is_test = true) :
    applyOp op s = s := by
  cases op with
  | sel e rand randAct x => simp [applyOp, selectAction, h]
  | env nx rw dn => simp [applyOp, agentStep, h]

/-- C10: in test mode select_action records no pending transition and
step stores nothing, so any sequence of test-mode select_action / step
calls leaves the replay buffer (contents, ptr and size) and the pending
transition unchanged. -/
theorem C10_test_mode_preserves_buffer (s : AgentState) (h : s.is_test = true)
    (ops : List AgentOp) :
    (ops.foldl (fun st op => applyOp op st) s).memory = s.memory
    ∧ (ops.foldl (fun st op => applyOp op st) s).memory.ptr = s.memory.ptr
    ∧ (ops.foldl (fun st op => applyOp op st) s).memory.size = s.memory.size
    ∧ (ops.foldl (fun st op => applyOp op st) s).transition = s.transition := by
  have hfold : ops.foldl (fun st op => applyOp op st) s = s := by
    induction ops with
    | nil => rfl
    | cons op rest ih => rw [List.foldl_cons, applyOp_test op s h, ih]
  rw [hfold]
  exact ⟨rfl, rfl, rfl, rfl⟩

/-- A plain valid configuration for the C10 witness. -/
def cfgA : AgentConfig := ⟨4, 2, 100, 32, 100, 1 / 2000, 1, 1 / 10, 99 / 100, 0, 200, 51⟩

/-- An agent switched to test mode, as done by DQNAgent.test. -/
def sTestW : AgentState := { DQNAgent.init cfgA p0W with is_test := true }

/-- A two-call test-mode episode fragment. -/
def opsW : List AgentOp :=
  [AgentOp.sel (fun q => q) (1 / 2) 0 [1, 2, 3, 4], AgentOp.env [0, 0, 0, 0] 1 false]

theorem C10_test_mode_preserves_buffer_witness :
    (opsW.foldl (fun st op => applyOp op st) sTestW).memory = sTestW.memory
    ∧ (opsW.foldl (fun st op => applyOp op st) sTestW).memory.ptr = sTestW.memory.ptr
    ∧ (opsW.foldl (fun st op => applyOp op st) sTestW).memory.size = sTestW.memory.size
    ∧ (opsW.foldl (fun st op => applyOp op st) sTestW).transition = sTestW.transition :=
  C10_test_mode_preserves_buffer sTestW rfl opsW

end RainbowC51
